import Mathlib

/-!
Verification of `src/timer.py` (KojiOchiai/timer_cui), a terminal countdown
timer.  The Python source is shallowly embedded: pure string processing is
modelled over `List Char` / `String`, Python floats (monotonic-clock readings)
are modelled as `ℚ`, and the interactive loop is modelled as a step function
over an explicit state, driven by a list of (clock reading, optional key)
inputs.
-/

/-! ## Python string primitives -/

/-- ASCII whitespace recognised by Python `str.strip` / `\s`
(restricted to the ASCII range, which covers all inputs in the claims). -/
def py_isspace (c : Char) : Bool :=
  c = ' ' ∨ c = '\t' ∨ c = '\n' ∨ c = '\x0d' ∨ c = '\x0b' ∨ c = '\x0c'

/-- ASCII decimal digit, as used by Python `str.isdigit` and `\d`
(restricted to ASCII). -/
def pyIsDigitChar (c : Char) : Bool :=
  '0' ≤ c ∧ c ≤ '9'

/-- Python `str.strip()`: remove leading and trailing whitespace. -/
def pyStrip (l : List Char) : List Char :=
  ((l.dropWhile py_isspace).reverse.dropWhile py_isspace).reverse

/-- Python `str.isdigit()`: nonempty and every character a digit. -/
def pyIsdigit (l : List Char) : Bool :=
  !l.isEmpty && l.all pyIsDigitChar

/-- Python `str.split(sep)` for a single-character separator:
empty parts are kept, splitting "a::b" on ':' yields ["a", "", "b"]. -/
def pySplit (sep : Char) : List Char → List (List Char)
  | [] => [[]]
  | c :: cs =>
    if c = sep then [] :: pySplit sep cs
    else
      match pySplit sep cs with
      | [] => [[c]]
      | p :: ps => (c :: p) :: ps

/-- Python `int(s)` for a string of decimal digits. -/
def digitsToNat (l : List Char) : ℕ :=
  l.foldl (fun n c => 10 * n + (c.toNat - '0'.toNat)) 0

/-! ## The regex `DURATION_PATTERN`

`timer.py` lines 27–30:
`^\s*(?:(?P<hours>\d+)h)?\s*(?:(?P<minutes>\d+)m)?\s*(?:(?P<seconds>\d+)s)?\s*$`
with `re.IGNORECASE`.  Because each optional group is a maximal digit run that
must be immediately followed by its suffix letter, and `\s`, `\d` and the
letters are pairwise disjoint character classes, the regex is matched by the
deterministic sequential scan below: skip whitespace, and for each of the
letters h, m, s in order, consume a maximal digit run when it is immediately
followed by that letter (case-insensitively); succeed iff the whole input is
consumed. -/

/-- One optional group `(?:(\d+)X)?` of `DURATION_PATTERN`: consume a maximal
digit run immediately followed by the letter `c` (case-insensitive), or leave
the input unchanged. -/
def tryGroup (c : Char) (cs : List Char) : Option ℕ × List Char :=
  let p := cs.span pyIsDigitChar
  match p.2 with
  | [] => (none, cs)
  | r :: rest =>
    if p.1 ≠ [] ∧ r.toLower = c then (some (digitsToNat p.1), rest)
    else (none, cs)

/-- Full match of `DURATION_PATTERN` against a string, returning the
(hours, minutes, seconds) groups with missing groups as 0. -/
def matchDurationPattern (cs : List Char) : Option (ℕ × ℕ × ℕ) :=
  let cs0 := cs.dropWhile py_isspace
  let ph := tryGroup 'h' cs0
  let cs1 := ph.2.dropWhile py_isspace
  let pm := tryGroup 'm' cs1
  let cs2 := pm.2.dropWhile py_isspace
  let ps := tryGroup 's' cs2
  let cs3 := ps.2.dropWhile py_isspace
  if cs3 = [] then some (ph.1.getD 0, pm.1.getD 0, ps.1.getD 0) else none

/-! ## `parse_duration` (timer.py lines 32–60) -/

/-- The colon branch of `parse_duration` (lines 37–48) as a partial grammar:
split on ':', strip each part, require all-digit parts, and accept exactly
two (mm:ss) or three (hh:mm:ss) components.  `none` corresponds to the
`ValueError("Invalid time format: ...")` raises. -/
def colonParse (v : List Char) : Option ℕ :=
  let parts := (pySplit ':' v).map pyStrip
  if parts.all pyIsdigit then
    match parts.map digitsToNat with
    | [m, s] => some (m * 60 + s)
    | [h, m, s] => some (h * 3600 + m * 60 + s)
    | _ => none
  else none

/-- The bare-integer branch of `parse_duration` (lines 50–51). -/
def intParse (v : List Char) : Option ℕ :=
  if pyIsdigit v then some (digitsToNat v) else none

/-- The suffix branch of `parse_duration` (lines 53–60): match
`DURATION_PATTERN` and combine the groups. -/
def suffixParse (v : List Char) : Option ℕ :=
  match matchDurationPattern v with
  | some (h, m, s) => some (h * 3600 + m * 60 + s)
  | none => none

/-- `parse_duration` (timer.py lines 32–60).  Faithful transcription:
strip; reject empty; if the value contains ':' commit to the colon grammar;
else if all digits return the integer; else match `DURATION_PATTERN`.
Errors carry the Python exception messages. -/
def parse_duration (value : String) : Except String ℕ :=
  let v := pyStrip value.toList
  if v = [] then .error "Empty duration"
  else if ':' ∈ v then
    match colonParse v with
    | some n => .ok n
    | none => .error ("Invalid time format: " ++ String.mk v)
  else if pyIsdigit v then .ok (digitsToNat v)
  else
    match matchDurationPattern v with
    | some (h, m, s) => .ok (h * 3600 + m * 60 + s)
    | none => .error ("Invalid duration: " ++ String.mk v)

/-- `validate_duration` (timer.py lines 128–130): reject values ≤ 0. -/
def validate_duration (seconds : ℤ) : Except String Unit :=
  if seconds ≤ 0 then .error "Duration must be greater than 0" else .ok ()

/-! ## `format_time` (timer.py lines 63–70) -/

/-- Python `int()` on a rational: truncation toward zero, i.e. the ceiling
for negative arguments and the floor otherwise (stated via the computable
`Rat.floor`; see the bridging conjunct in the C5 theorem). -/
def pyIntTrunc (q : ℚ) : ℤ :=
  if q < 0 then -Rat.floor (-q) else Rat.floor q

/-- `max(0, int(total_seconds + 0.5))` from line 64: round to the nearest
integer second (half away from the truncation direction) and clamp at 0. -/
def pyRoundClamp (t : ℚ) : ℕ :=
  (max 0 (pyIntTrunc (t + 1/2))).toNat

/-- Python `f"{n:02d}"`: decimal rendering zero-padded to width 2. -/
def pad2 (n : ℕ) : String :=
  if n < 10 then "0" ++ toString n else toString n

/-- `format_time` (timer.py lines 63–70): clamp-round the float seconds,
then render `HH:MM:SS` when hours > 0, else `MM:SS`. -/
def format_time (total_seconds : ℚ) : String :=
  let n := pyRoundClamp total_seconds
  let hours := n / 3600
  let minutes := n % 3600 / 60
  let seconds := n % 60
  if hours > 0 then pad2 hours ++ ":" ++ pad2 minutes ++ ":" ++ pad2 seconds
  else pad2 minutes ++ ":" ++ pad2 seconds

/-! ## `build_header` percent (timer.py lines 86–87) -/

/-- The percent-complete computation of `build_header` (line 87):
`0 if total == 0 else min(100.0, (1 - remaining / total) * 100)`. -/
def percent (remaining total : ℚ) : ℚ :=
  if total = 0 then 0 else min 100 ((1 - remaining / total) * 100)

/-! ## The `run_timer` loop (timer.py lines 136–186)

The loop's mutable state is `start` (monotonic instant of the last resume),
`elapsed_before_pause` (seconds accumulated over completed running
intervals) and `paused`.  Each iteration reads `now`, processes at most one
key, computes `elapsed` and `remaining`, updates the progress bar with
`completed = min(elapsed, duration)`, renders a frame, and exits the loop
when `remaining ≤ 0` (printing "Time's up!") or immediately on `q`
(printing nothing). -/

structure LoopState where
  start : ℚ
  elapsed_before_pause : ℚ
  paused : Bool
deriving DecidableEq, Repr

/-- The key dispatch of one loop iteration (timer.py lines 158–170) for a
non-quit key: lowercase the key; on 'p' or space toggle pause (accumulating
`now - start` when pausing, restamping `start` when resuming); then on 's'
while paused, resume. -/
def updateState (st : LoopState) (now : ℚ) (k : Char) : LoopState :=
  let key := k.toLower
  let st1 :=
    if key = 'p' ∨ key = ' ' then
      if st.paused then { st with start := now, paused := false }
      else { st with elapsed_before_pause := st.elapsed_before_pause + (now - st.start),
                     paused := true }
    else st
  if key = 's' ∧ st1.paused then { st1 with start := now, paused := false } else st1

/-- `elapsed` as computed on lines 172–175:
frozen at `elapsed_before_pause` while paused, else
`elapsed_before_pause + (now - start)`. -/
def elapsedOf (st : LoopState) (now : ℚ) : ℚ :=
  if st.paused then st.elapsed_before_pause
  else st.elapsed_before_pause + (now - st.start)

/-- One emitted frame: the progress-bar update amount
`completed = min(elapsed, duration)` (line 178), the header's remaining
seconds, and the paused flag (lines 179–181). -/
structure Frame where
  completed : ℚ
  remaining : ℚ
  paused : Bool
deriving DecidableEq, Repr

/-- The frame emitted by one loop iteration at clock reading `now`. -/
def tickFrame (duration : ℚ) (st : LoopState) (now : ℚ) : Frame :=
  { completed := min (elapsedOf st now) duration
    remaining := duration - elapsedOf st now
    paused := st.paused }

/-- Result of one loop iteration. -/
inductive TickResult where
  | quit : TickResult
  | finished : Frame → TickResult
  | cont : LoopState → Frame → TickResult
deriving DecidableEq, Repr

/-- The render-and-check tail of one iteration (timer.py lines 172–184):
emit the frame, then exit the loop when `remaining ≤ 0`. -/
def mkTick (duration : ℚ) (st : LoopState) (now : ℚ) : TickResult :=
  let fr := tickFrame duration st now
  if fr.remaining ≤ 0 then .finished fr else .cont st fr

/-- One full loop iteration (timer.py lines 154–184): read `now`, poll at
most one key; 'q' (lowercased) returns from `run_timer` at once, before any
frame is emitted; any other key updates the state; then render and check. -/
def tickStep (duration : ℚ) (st : LoopState) (now : ℚ) (key : Option Char) :
    TickResult :=
  match key with
  | none => mkTick duration st now
  | some k =>
    if k.toLower = 'q' then .quit
    else mkTick duration (updateState st now k) now

/-- Outcome of running the loop on a finite input trace:
`quit` (user pressed q; "Time's up!" is NOT printed), `finished`
(remaining hit ≤ 0; "Time's up!" IS printed on line 186), or `ongoing`
(trace exhausted while the loop would continue).  Frames emitted so far
are collected in order. -/
inductive Outcome where
  | quitOut : List Frame → Outcome
  | finishedOut : List Frame → Outcome
  | ongoing : LoopState → List Frame → Outcome
deriving DecidableEq, Repr

/-- Run the loop over a finite trace of (monotonic reading, polled key)
pairs. -/
def runLoop (duration : ℚ) (st : LoopState) :
    List (ℚ × Option Char) → Outcome
  | [] => .ongoing st []
  | (t, k) :: rest =>
    match tickStep duration st t k with
    | .quit => .quitOut []
    | .finished fr => .finishedOut [fr]
    | .cont st1 fr =>
      match runLoop duration st1 rest with
      | .quitOut frs => .quitOut (fr :: frs)
      | .finishedOut frs => .finishedOut (fr :: frs)
      | .ongoing st2 frs => .ongoing st2 (fr :: frs)

/-- Whether the run prints the final success message
(`console.print(... "Time's up!" ...)`, line 186): exactly when the loop
ends by natural expiry. -/
def timesUpPrinted : Outcome → Bool
  | .finishedOut _ => true
  | _ => false

/-! ## `main` (timer.py lines 189–204)

`main` parses and validates the duration (both `ValueError`s become
`typer.BadParameter`, which exits with status 2), rejects `tick ≤ 0` the
same way, and otherwise enters `run_timer`; `run_timer` always returns
normally (quit or natural expiry), after which the process exits with 0. -/

def main_model (duration : String) (tick : ℚ) : Except String (ℕ × ℚ) :=
  match parse_duration duration with
  | .error e => .error e
  | .ok s =>
    match validate_duration (s : ℤ) with
    | .error e => .error e
    | .ok _ =>
      if tick ≤ 0 then .error "--tick must be greater than 0"
      else .ok (s, tick)

/-- Process exit status of `main`: 2 on a `BadParameter` usage error
(no timer is ever shown), 0 after a normal run. -/
def main_exit (duration : String) (tick : ℚ) : ℕ :=
  match main_model duration tick with
  | .error _ => 2
  | .ok _ => 0

/-! ## Spec-side definitions

These two definitions follow the specification's words rather than the code;
the refinement theorems below compare the code against them. -/

/-- Spec-side pause indicator after one keypress, transcribing the spec's
transition table: `p`/`P`/space toggles, `s`/`S` resumes from `Paused` and is
a no-op while `Running`, `q` is handled separately, all other keys are
ignored. -/
def pausedAfterKey (paused : Bool) (k : Char) : Bool :=
  let key := k.toLower
  if key = 'p' ∨ key = ' ' then !paused
  else if key = 's' ∧ paused then false
  else paused

/-- Spec-side elapsed time: the total length of time spent in `Running`
states from instant `t` (in pause state `paused`) through the keypresses of
`events` and on to the final instant `tEnd`.  Every interval spent `Paused`
contributes exactly `0` by construction. -/
def specElapsed (paused : Bool) (t tEnd : ℚ) : List (ℚ × Char) → ℚ
  | [] => if paused then 0 else tEnd - t
  | (t1, k) :: rest =>
    (if paused then 0 else t1 - t) + specElapsed (pausedAfterKey paused k) t1 tEnd rest

/-- Spec-side ordered-alternation parser, transcribing the spec's "grammars
are tried in this order": first the colon grammar, then the bare integer,
then the h/m/s suffix form; empty (after stripping) input is rejected. -/
def orderedParse (value : String) : Option ℕ :=
  let v := pyStrip value.toList
  if v = [] then none
  else
    match colonParse v with
    | some n => some n
    | none =>
      match intParse v with
      | some n => some n
      | none => suffixParse v

/-- Fold the key dispatch over a list of (instant, key) presses. -/
def runKeys (st : LoopState) : List (ℚ × Char) → LoopState
  | [] => st
  | (t, k) :: rest => runKeys (updateState st t k) rest

/-- The percent-complete value shown by the header on a tick at clock
reading `now` (lines 177 and 179–181 feed `remaining = duration - elapsed`
and `total = duration` into `build_header`, line 87 computes the percent). -/
def percentAt (duration : ℚ) (st : LoopState) (now : ℚ) : ℚ :=
  percent (duration - elapsedOf st now) duration

/-! ## Helper lemmas -/

/-- `Rat.floor` agrees with the `FloorRing` floor on ℚ (definitional). -/
theorem rat_floor_eq_intFloor (q : ℚ) : Rat.floor q = ⌊q⌋ := rfl

/-- `pyIntTrunc` is truncation toward zero: the ceiling for negative
arguments, the floor otherwise. -/
theorem pyIntTrunc_eq (q : ℚ) : pyIntTrunc q = if q < 0 then ⌈q⌉ else ⌊q⌋ := rfl

/-- Unfolded form of `pyRoundClamp` in floor/ceiling terms. -/
theorem pyRoundClamp_eq (t : ℚ) :
    pyRoundClamp t =
      (max 0 (if t + 1/2 < 0 then ⌈t + 1/2⌉ else ⌊t + 1/2⌋)).toNat := rfl

/-! ## Claim theorems -/

/-- C3: the percent-complete value of `build_header` is 0 when the total is
0, otherwise `min(100, (1 - remaining/total) * 100)`; it never exceeds 100
for any remaining value (including negative remaining); and for total 100
and remaining 75 (elapsed 25) it is exactly 25. -/
theorem C3_percent_formula :
    (∀ r : ℚ, percent r 0 = 0) ∧
    (∀ r t : ℚ, t ≠ 0 → percent r t = min 100 ((1 - r / t) * 100)) ∧
    (∀ r t : ℚ, percent r t ≤ 100) ∧
    percent 75 100 = 25 := by
  refine ⟨fun r => by simp [percent], fun r t ht => by simp [percent, ht],
    fun r t => ?_, by norm_num [percent]⟩
  by_cases ht : t = 0 <;> simp [percent, ht]

/-- `C3_percent_formula` applied at remaining 75, total 100. -/
theorem C3_percent_formula_witness :
    (100 : ℚ) ≠ 0 ∧ percent 75 100 = min 100 ((1 - 75 / 100) * 100) :=
  ⟨by decide, C3_percent_formula.2.1 75 100 (by decide)⟩

/-- C5: `format_time` rounds its argument to the nearest integer second by
adding 0.5 and truncating toward zero (ceiling below zero, floor above),
floors the result at 0 (so the rendered value is always non-negative), and
renders `HH:MM:SS` when hours > 0 and `MM:SS` otherwise; in particular
`format_time 0 = "00:00"`, `format_time 65 = "01:05"`,
`format_time 3661 = "01:01:01"` and `format_time (-5) = "00:00"`. -/
theorem C5_format_time_spec :
    (∀ t : ℚ, pyIntTrunc t = if t < 0 then ⌈t⌉ else ⌊t⌋) ∧
    (∀ t : ℚ, pyRoundClamp t = (max 0 (pyIntTrunc (t + 1/2))).toNat) ∧
    (∀ t : ℚ, (0 : ℤ) ≤ max 0 (pyIntTrunc (t + 1/2))) ∧
    (∀ t : ℚ, format_time t =
      (if 0 < pyRoundClamp t / 3600 then
         pad2 (pyRoundClamp t / 3600) ++ ":" ++ pad2 (pyRoundClamp t % 3600 / 60)
           ++ ":" ++ pad2 (pyRoundClamp t % 60)
       else pad2 (pyRoundClamp t % 3600 / 60) ++ ":" ++ pad2 (pyRoundClamp t % 60))) ∧
    format_time 0 = "00:00" ∧ format_time 65 = "01:05" ∧
    format_time 3661 = "01:01:01" ∧ format_time (-5) = "00:00" := by
  have hgen : ∀ t : ℚ, ∀ n : ℕ, pyRoundClamp t = n →
      format_time t =
        (if 0 < n / 3600 then
           pad2 (n / 3600) ++ ":" ++ pad2 (n % 3600 / 60) ++ ":" ++ pad2 (n % 60)
         else pad2 (n % 3600 / 60) ++ ":" ++ pad2 (n % 60)) := by
    intro t n hn
    simp only [format_time, hn]
  have h0 : pyRoundClamp 0 = 0 := by
    rw [pyRoundClamp_eq]
    norm_num
  have h65 : pyRoundClamp 65 = 65 := by
    rw [pyRoundClamp_eq]
    norm_num
    decide
  have h3661 : pyRoundClamp 3661 = 3661 := by
    rw [pyRoundClamp_eq]
    norm_num
    decide
  have hm5 : pyRoundClamp (-5) = 0 := by
    rw [pyRoundClamp_eq]
    norm_num
    exact Int.ceil_le.mpr (by norm_num)
  refine ⟨pyIntTrunc_eq, fun t => rfl, fun t => le_max_left _ _, fun t => rfl,
    ?_, ?_, ?_, ?_⟩
  · rw [hgen 0 0 h0]; rfl
  · rw [hgen 65 65 h65]; rfl
  · rw [hgen 3661 3661 h3661]; rfl
  · rw [hgen (-5) 0 hm5]; rfl

/-- C6: the parser itself accepts strings denoting 0 seconds
(`parse_duration "0"` and `parse_duration "0s"` both return 0); rejection
of non-positive values happens only in the separate `validate_duration`
step, which fails for every input ≤ 0 (including 0 and -5) with the
message "Duration must be greater than 0" and succeeds for every positive
input. -/
theorem C6_zero_parses_validation_rejects :
    parse_duration "0" = .ok 0 ∧
    parse_duration "0s" = .ok 0 ∧
    (∀ s : ℤ, s ≤ 0 →
      validate_duration s = .error "Duration must be greater than 0") ∧
    (∀ s : ℤ, 0 < s → validate_duration s = .ok ()) ∧
    validate_duration 0 = .error "Duration must be greater than 0" ∧
    validate_duration (-5) = .error "Duration must be greater than 0" := by
  refine ⟨rfl, rfl, fun s hs => ?_, fun s hs => ?_, rfl, rfl⟩
  · simp [validate_duration, hs]
  · simp [validate_duration, not_le.mpr hs]

/-- `C6_zero_parses_validation_rejects` applied at -5. -/
theorem C6_zero_parses_validation_rejects_witness :
    (-5 : ℤ) ≤ 0 ∧
    validate_duration (-5) = .error "Duration must be greater than 0" :=
  ⟨by decide, C6_zero_parses_validation_rejects.2.2.1 (-5) (by decide)⟩

/-- C10: on every tick the progress-bar task is updated with
`completed = min(elapsed, duration)`, so the reported completed amount
never exceeds the task total, for every elapsed value — including the
final tick, where remaining has gone negative (the `finished` case). -/
theorem C10_completed_never_exceeds_total :
    ∀ (d : ℚ) (st : LoopState) (now : ℚ),
      (tickFrame d st now).completed = min (elapsedOf st now) d ∧
      (tickFrame d st now).completed ≤ d ∧
      (mkTick d st now = .finished (tickFrame d st now) ∨
        mkTick d st now = .cont st (tickFrame d st now)) := by
  intro d st now
  refine ⟨rfl, min_le_right _ _, ?_⟩
  by_cases h : (tickFrame d st now).remaining ≤ 0
  · left; simp [mkTick, h]
  · right; simp [mkTick, h]

/-- C8: before the interactive loop starts, an unparseable duration, a
parsed duration of 0, and a tick ≤ 0 each produce a usage error with exit
status 2 (non-zero) and no timer state is produced; with a parseable
positive duration and tick > 0, `main` reaches `run_timer` and—since
`run_timer` returns normally on both quit and natural expiry—exits with
status 0. -/
theorem C8_cli_validation :
    (∀ (d : String) (t : ℚ) (e : String), parse_duration d = .error e →
      main_model d t = .error e ∧ main_exit d t = 2) ∧
    (∀ (d : String) (t : ℚ), parse_duration d = .ok 0 →
      main_model d t = .error "Duration must be greater than 0" ∧
        main_exit d t = 2) ∧
    (∀ (d : String) (t : ℚ) (s : ℕ), parse_duration d = .ok s → 0 < s →
      t ≤ 0 →
      main_model d t = .error "--tick must be greater than 0" ∧
        main_exit d t = 2) ∧
    (∀ (d : String) (t : ℚ) (s : ℕ), parse_duration d = .ok s → 0 < s →
      0 < t → main_model d t = .ok (s, t) ∧ main_exit d t = 0) := by
  refine ⟨fun d t e he => ?_, fun d t h0 => ?_, fun d t s hs hpos htick => ?_,
    fun d t s hs hpos htick => ?_⟩
  · constructor <;> simp [main_model, main_exit, he]
  · constructor <;> simp [main_model, main_exit, h0, validate_duration]
  · have hv : ¬((s : ℤ) ≤ 0) := by exact_mod_cast not_le.mpr hpos
    constructor <;> simp [main_model, main_exit, hs, validate_duration, hv, htick]
  · have hv : ¬((s : ℤ) ≤ 0) := by exact_mod_cast not_le.mpr hpos
    constructor <;>
      simp [main_model, main_exit, hs, validate_duration, hv, not_le.mpr htick]

/-- `C8_cli_validation` applied to the runs `timer 90 --tick 1`,
`timer abc` and `timer 0`. -/
theorem C8_cli_validation_witness :
    (parse_duration "90" = .ok 90 ∧ 0 < 90 ∧ (0 : ℚ) < 1 ∧
      main_model "90" 1 = .ok (90, 1) ∧ main_exit "90" 1 = 0) ∧
    (parse_duration "abc" = .error "Invalid duration: abc" ∧
      main_exit "abc" 1 = 2) ∧
    (parse_duration "0" = .ok 0 ∧ main_exit "0" 1 = 2) :=
  ⟨⟨rfl, by decide, by decide,
      C8_cli_validation.2.2.2 "90" 1 90 rfl (by decide) (by decide)⟩,
    ⟨rfl, (C8_cli_validation.1 "abc" 1 "Invalid duration: abc" rfl).2⟩,
    ⟨rfl, (C8_cli_validation.2.1 "0" 1 rfl).2⟩⟩

/-- C2: for a fixed non-negative total duration, the header's percent value
is monotonically non-decreasing across ticks while the timer is Running
(the monotonic clock readings being non-decreasing), is constant across
ticks while the timer is Paused, and a tick that polls no key never changes
the loop state. -/
theorem C2_percent_monotone :
    (∀ (d : ℚ) (st : LoopState) (now now1 : ℚ), 0 ≤ d →
      st.paused = false → now ≤ now1 →
      percentAt d st now ≤ percentAt d st now1) ∧
    (∀ (d : ℚ) (st : LoopState) (now now1 : ℚ), st.paused = true →
      percentAt d st now = percentAt d st now1) ∧
    (∀ (d : ℚ) (st : LoopState) (now : ℚ) (st1 : LoopState) (fr : Frame),
      tickStep d st now none = .cont st1 fr → st1 = st) := by
  refine ⟨fun d st now now1 hd hp hle => ?_, fun d st now now1 hp => ?_,
    fun d st now st1 fr hstep => ?_⟩
  · rcases eq_or_lt_of_le hd with hd0 | hd0
    · simp [percentAt, percent, hd0.symm]
    · have helapsed : elapsedOf st now ≤ elapsedOf st now1 := by
        simp only [elapsedOf, hp]
        simp only [Bool.false_eq_true, if_false]
        linarith
      simp only [percentAt, percent, ne_of_gt hd0, if_neg (ne_of_gt hd0)]
      refine min_le_min le_rfl ?_
      have hdiv : (d - elapsedOf st now1) / d ≤ (d - elapsedOf st now) / d :=
        div_le_div_of_nonneg_right (by linarith) hd0.le
      nlinarith [hdiv]
  · simp [percentAt, elapsedOf, hp]
  · simp only [tickStep, mkTick] at hstep
    by_cases h : (tickFrame d st now).remaining ≤ 0
    · simp [h] at hstep
    · simp [h] at hstep
      exact hstep.1.symm

/-- `C2_percent_monotone` applied to a running state observed at instants
1 and 2 with total 10, and to a paused state at the same instants. -/
theorem C2_percent_monotone_witness :
    ((0 : ℚ) ≤ 10 ∧ (LoopState.mk 0 0 false).paused = false ∧ (1 : ℚ) ≤ 2 ∧
      percentAt 10 (LoopState.mk 0 0 false) 1 ≤
        percentAt 10 (LoopState.mk 0 0 false) 2) ∧
    ((LoopState.mk 0 3 true).paused = true ∧
      percentAt 10 (LoopState.mk 0 3 true) 1 =
        percentAt 10 (LoopState.mk 0 3 true) 2) :=
  ⟨⟨by decide, rfl, by decide,
      C2_percent_monotone.1 10 (LoopState.mk 0 0 false) 1 2 (by decide) rfl
        (by decide)⟩,
    ⟨rfl, C2_percent_monotone.2.1 10 (LoopState.mk 0 3 true) 1 2 rfl⟩⟩

/-- The paused flag after the code's key dispatch agrees with the spec's
transition table. -/
theorem updateState_paused (st : LoopState) (now : ℚ) (k : Char) :
    (updateState st now k).paused = pausedAfterKey st.paused k := by
  simp only [updateState, pausedAfterKey]
  by_cases hp : k.toLower = 'p' ∨ k.toLower = ' '
  · have hs : ¬(k.toLower = 's') := by
      rcases hp with h | h <;> simp [h]
    cases hpause : st.paused <;> simp [hp, hs, hpause]
  · by_cases hs : k.toLower = 's'
    · cases hpause : st.paused <;> simp [hp, hs, hpause]
    · cases hpause : st.paused <;> simp [hp, hs, hpause]

/-- `specElapsed` in a paused state does not depend on the reference
instant. -/
theorem specElapsed_paused_indep (rest : List (ℚ × Char)) (x y tEnd : ℚ) :
    specElapsed true x tEnd rest = specElapsed true y tEnd rest := by
  cases rest with
  | nil => simp [specElapsed]
  | cons e r => obtain ⟨t1, k⟩ := e; simp [specElapsed]


/-- Splitting a running segment at an intermediate instant telescopes. -/
theorem specElapsed_running_shift (rest : List (ℚ × Char)) (x y tEnd : ℚ) :
    specElapsed false x tEnd rest = (y - x) + specElapsed false y tEnd rest := by
  cases rest with
  | nil => simp [specElapsed]
  | cons e r => obtain ⟨t1, k⟩ := e; simp [specElapsed]; ring

/-- Keys 'p'/'P'/space pressed while running accumulate `now - start` into
`elapsed_before_pause` and pause; `start` is left untouched. -/
theorem updateState_toggle_pause (st : LoopState) (now : ℚ) (k : Char)
    (hk : k.toLower = 'p' ∨ k.toLower = ' ') (hp : st.paused = false) :
    updateState st now k =
      ⟨st.start, st.elapsed_before_pause + (now - st.start), true⟩ := by
  have hs : ¬(k.toLower = 's') := by rcases hk with h | h <;> simp [h]
  simp [updateState, hk, hp, hs]

/-- Keys 'p'/'P'/space pressed while paused restamp `start := now` and
resume; `elapsed_before_pause` is left untouched. -/
theorem updateState_toggle_resume (st : LoopState) (now : ℚ) (k : Char)
    (hk : k.toLower = 'p' ∨ k.toLower = ' ') (hp : st.paused = true) :
    updateState st now k = ⟨now, st.elapsed_before_pause, false⟩ := by
  have hs : ¬(k.toLower = 's') := by rcases hk with h | h <;> simp [h]
  simp [updateState, hk, hp, hs]

/-- Key 's'/'S' pressed while paused resumes exactly like 'p'. -/
theorem updateState_s_resume (st : LoopState) (now : ℚ) (k : Char)
    (hk : k.toLower = 's') (hp : st.paused = true) :
    updateState st now k = ⟨now, st.elapsed_before_pause, false⟩ := by
  have hknp : ¬(k.toLower = 'p' ∨ k.toLower = ' ') := by simp [hk]
  simp [updateState, hknp, hk, hp]

/-- Any other key (or 's' while running) leaves the state unchanged. -/
theorem updateState_noop (st : LoopState) (now : ℚ) (k : Char)
    (hknp : ¬(k.toLower = 'p' ∨ k.toLower = ' '))
    (h2 : ¬(k.toLower = 's' ∧ st.paused = true)) :
    updateState st now k = st := by
  simp only [updateState, if_neg hknp]
  rw [if_neg h2]

/-- `pausedAfterKey` on a toggle key. -/
theorem pausedAfterKey_toggle (b : Bool) (k : Char)
    (hk : k.toLower = 'p' ∨ k.toLower = ' ') : pausedAfterKey b k = !b := by
  simp [pausedAfterKey, hk]

/-- `pausedAfterKey` on 's' while paused. -/
theorem pausedAfterKey_s (k : Char)
    (hknp : ¬(k.toLower = 'p' ∨ k.toLower = ' ')) (hk : k.toLower = 's') :
    pausedAfterKey true k = false := by
  simp [pausedAfterKey, hknp, hk]

/-- `pausedAfterKey` on an ignored key. -/
theorem pausedAfterKey_noop (b : Bool) (k : Char)
    (hknp : ¬(k.toLower = 'p' ∨ k.toLower = ' '))
    (h2 : ¬(k.toLower = 's' ∧ b = true)) : pausedAfterKey b k = b := by
  simp only [pausedAfterKey, if_neg hknp]
  rw [if_neg h2]

/-- Invariant of the key-dispatch fold: the `elapsed` the code computes at
any final instant equals the accumulator plus the spec-side running time. -/
theorem elapsedOf_runKeys (events : List (ℚ × Char)) :
    ∀ (st : LoopState) (tEnd : ℚ),
      elapsedOf (runKeys st events) tEnd =
        st.elapsed_before_pause +
          specElapsed st.paused st.start tEnd events := by
  induction events with
  | nil =>
    intro st tEnd
    cases hp : st.paused <;> simp [runKeys, elapsedOf, specElapsed, hp]
  | cons e rest ih =>
    intro st tEnd
    obtain ⟨t1, k⟩ := e
    simp only [runKeys, specElapsed]
    rw [ih]
    by_cases hp : k.toLower = 'p' ∨ k.toLower = ' '
    · cases hpause : st.paused
      · rw [updateState_toggle_pause st t1 k hp hpause,
          pausedAfterKey_toggle false k hp]
        dsimp only
        rw [specElapsed_paused_indep rest st.start t1]
        simp only [Bool.not_false, Bool.false_eq_true, if_false]
        ring
      · rw [updateState_toggle_resume st t1 k hp hpause,
          pausedAfterKey_toggle true k hp]
        dsimp only
        simp only [Bool.not_true]
        simp
    · by_cases hcond : k.toLower = 's' ∧ st.paused = true
      · rw [updateState_s_resume st t1 k hcond.1 hcond.2, hcond.2,
          pausedAfterKey_s k hp hcond.1]
        dsimp only
        simp
      · rw [updateState_noop st t1 k hp hcond]
        cases hpause : st.paused
        · rw [pausedAfterKey_noop false k hp (by simp)]
          simp only [Bool.false_eq_true, if_false]
          rw [specElapsed_running_shift rest st.start t1]
        · have hs : ¬(k.toLower = 's') := fun h => hcond ⟨h, hpause⟩
          rw [pausedAfterKey_noop true k hp (by simp [hs])]
          rw [specElapsed_paused_indep rest st.start t1]
          simp

/-- C1: pressing 'p'/'P' or space while Running adds `now - start` to
`elapsed_before_pause` and moves to Paused; pressing it while Paused sets
`start := now` and moves to Running; consequently, over any sequence of
key events (with no quit), the `elapsed` value the loop computes equals the
spec-side total time spent in Running states, in which every interval spent
Paused contributes exactly zero; in particular, when the final state is
Paused, `elapsed_before_pause` itself equals that running time. -/
theorem C1_pause_resume_accounting :
    (∀ (st : LoopState) (now : ℚ) (k : Char),
      (k = 'p' ∨ k = 'P' ∨ k = ' ') → st.paused = false →
      updateState st now k =
        ⟨st.start, st.elapsed_before_pause + (now - st.start), true⟩) ∧
    (∀ (st : LoopState) (now : ℚ) (k : Char),
      (k = 'p' ∨ k = 'P' ∨ k = ' ') → st.paused = true →
      updateState st now k = ⟨now, st.elapsed_before_pause, false⟩) ∧
    (∀ (events : List (ℚ × Char)) (t0 e0 tEnd : ℚ),
      (∀ p ∈ events, (p.2).toLower ≠ 'q') →
      elapsedOf (runKeys ⟨t0, e0, false⟩ events) tEnd =
        e0 + specElapsed false t0 tEnd events) ∧
    (∀ (events : List (ℚ × Char)) (t0 e0 tEnd : ℚ),
      (∀ p ∈ events, (p.2).toLower ≠ 'q') →
      (runKeys ⟨t0, e0, false⟩ events).paused = true →
      (runKeys ⟨t0, e0, false⟩ events).elapsed_before_pause =
        e0 + specElapsed false t0 tEnd events) := by
  have hkey : ∀ k : Char, (k = 'p' ∨ k = 'P' ∨ k = ' ') →
      (k.toLower = 'p' ∨ k.toLower = ' ') := by
    rintro k (rfl | rfl | rfl)
    · left; rfl
    · left; decide
    · right; decide
  refine ⟨fun st now k hk hp => updateState_toggle_pause st now k (hkey k hk) hp,
    fun st now k hk hp => updateState_toggle_resume st now k (hkey k hk) hp,
    fun events t0 e0 tEnd _ => ?_, fun events t0 e0 tEnd hq hfin => ?_⟩
  · simpa using elapsedOf_runKeys events ⟨t0, e0, false⟩ tEnd
  · have h := elapsedOf_runKeys events ⟨t0, e0, false⟩ tEnd
    simp only [elapsedOf, hfin, if_pos rfl] at h
    simpa using h

/-- `C1_pause_resume_accounting` applied to a Running start, two
pause/resume cycles (pause at 1, resume at 3, pause at 5, resume at 7) and
a final observation at 10: the loop's elapsed equals the spec-side running
time of the trace. -/
theorem C1_pause_resume_accounting_witness :
    (∀ p ∈ [((1 : ℚ), 'p'), ((3 : ℚ), 'p'), ((5 : ℚ), 'p'), ((7 : ℚ), 'p')],
      (p.2).toLower ≠ 'q') ∧
    elapsedOf
        (runKeys ⟨0, 0, false⟩
          [((1 : ℚ), 'p'), ((3 : ℚ), 'p'), ((5 : ℚ), 'p'), ((7 : ℚ), 'p')]) 10 =
      0 + specElapsed false 0 10
          [((1 : ℚ), 'p'), ((3 : ℚ), 'p'), ((5 : ℚ), 'p'), ((7 : ℚ), 'p')] :=
  ⟨by decide,
    C1_pause_resume_accounting.2.2.1
      [((1 : ℚ), 'p'), ((3 : ℚ), 'p'), ((5 : ℚ), 'p'), ((7 : ℚ), 'p')] 0 0 10
      (by decide)⟩

/-- C7: 'q'/'Q' in any loop state quits at once — no frame is emitted for
that tick and the "Time's up!" message is not printed — while natural
expiry (`remaining ≤ 0` with no key) emits one final frame and then the
success message; 's'/'S' while Paused resumes exactly like 'p' and is a
no-op while Running; every unrecognized key leaves the state unchanged. -/
theorem C7_quit_expiry_keys :
    (∀ (d : ℚ) (st : LoopState) (now : ℚ),
      tickStep d st now (some 'q') = .quit ∧
      tickStep d st now (some 'Q') = .quit) ∧
    (∀ (d : ℚ) (st : LoopState) (t : ℚ) (rest : List (ℚ × Option Char)),
      runLoop d st ((t, some 'q') :: rest) = .quitOut [] ∧
      timesUpPrinted (runLoop d st ((t, some 'q') :: rest)) = false ∧
      runLoop d st ((t, some 'Q') :: rest) = .quitOut [] ∧
      timesUpPrinted (runLoop d st ((t, some 'Q') :: rest)) = false) ∧
    (∀ (d : ℚ) (st : LoopState) (t : ℚ) (rest : List (ℚ × Option Char)),
      d - elapsedOf st t ≤ 0 →
      runLoop d st ((t, none) :: rest) = .finishedOut [tickFrame d st t] ∧
      timesUpPrinted (runLoop d st ((t, none) :: rest)) = true) ∧
    (∀ (st : LoopState) (now : ℚ), st.paused = true →
      updateState st now 's' = ⟨now, st.elapsed_before_pause, false⟩ ∧
      updateState st now 'S' = ⟨now, st.elapsed_before_pause, false⟩) ∧
    (∀ (st : LoopState) (now : ℚ), st.paused = false →
      updateState st now 's' = st ∧ updateState st now 'S' = st) ∧
    (∀ (st : LoopState) (now : ℚ) (k : Char),
      k.toLower ≠ 'q' → k.toLower ≠ 'p' → k.toLower ≠ ' ' →
      k.toLower ≠ 's' → updateState st now k = st) := by
  refine ⟨fun d st now => ⟨rfl, rfl⟩, fun d st t rest => ⟨rfl, rfl, rfl, rfl⟩,
    fun d st t rest h => ?_, fun st now hp => ?_, fun st now hp => ?_,
    fun st now k hq hkp hksp hks => ?_⟩
  · have h1 : (tickFrame d st t).remaining ≤ 0 := h
    constructor
    · simp only [runLoop, tickStep, mkTick, if_pos h1]
    · simp only [runLoop, tickStep, mkTick, if_pos h1, timesUpPrinted]
  · exact ⟨updateState_s_resume st now 's' rfl hp,
      updateState_s_resume st now 'S' (by decide) hp⟩
  · constructor
    · exact updateState_noop st now 's' (by decide) (by simp [hp])
    · refine updateState_noop st now 'S' (by decide) ?_
      rintro ⟨_, hcontra⟩
      simp [hp] at hcontra
  · refine updateState_noop st now k (by simp [hkp, hksp]) ?_
    rintro ⟨hcontra, _⟩
    exact hks hcontra

/-- `C7_quit_expiry_keys` applied to a natural expiry at duration 0 from a
paused state, an 's' resume from a paused state, and the unrecognized key
'x'. -/
theorem C7_quit_expiry_keys_witness :
    ((0 : ℚ) - elapsedOf ⟨0, 0, true⟩ 1 ≤ 0 ∧
      runLoop 0 ⟨0, 0, true⟩ [((1 : ℚ), none)] =
        .finishedOut [tickFrame 0 ⟨0, 0, true⟩ 1] ∧
      timesUpPrinted (runLoop 0 ⟨0, 0, true⟩ [((1 : ℚ), none)]) = true) ∧
    ((LoopState.mk 2 3 true).paused = true ∧
      updateState ⟨2, 3, true⟩ 5 's' = ⟨5, 3, false⟩) ∧
    updateState ⟨2, 3, false⟩ 5 'x' = ⟨2, 3, false⟩ :=
  ⟨⟨by simp [elapsedOf],
      (C7_quit_expiry_keys.2.2.1 0 ⟨0, 0, true⟩ 1 [] (by simp [elapsedOf])).1,
      (C7_quit_expiry_keys.2.2.1 0 ⟨0, 0, true⟩ 1 [] (by simp [elapsedOf])).2⟩,
    ⟨rfl, (C7_quit_expiry_keys.2.2.2.1 ⟨2, 3, true⟩ 5 rfl).1⟩,
    C7_quit_expiry_keys.2.2.2.2.2 ⟨2, 3, false⟩ 5 'x' (by decide) (by decide)
      (by decide) (by decide)⟩

/-- A decimal digit is not whitespace. -/
theorem digit_not_space (c : Char) (h : pyIsDigitChar c = true) :
    py_isspace c = false := by
  by_contra hcontra
  rw [Bool.not_eq_false] at hcontra
  have hc : c = ' ' ∨ c = '\t' ∨ c = '\n' ∨ c = '\x0d' ∨ c = '\x0b' ∨
      c = '\x0c' := by simpa [py_isspace] using hcontra
  rcases hc with rfl | rfl | rfl | rfl | rfl | rfl <;>
    exact absurd h (by decide)

/-- `pyStrip` is the identity when neither end is whitespace. -/
theorem pyStrip_no_ws_ends (l : List Char)
    (h1 : l.dropWhile py_isspace = l)
    (h2 : l.reverse.dropWhile py_isspace = l.reverse) : pyStrip l = l := by
  rw [pyStrip, h1, h2, List.reverse_reverse]

/-- `pyStrip` is the identity on a nonempty all-digit string. -/
theorem pyStrip_all_digits (l : List Char) (hne : l ≠ [])
    (hd : l.all pyIsDigitChar = true) : pyStrip l = l := by
  refine pyStrip_no_ws_ends l ?_ ?_
  · cases l with
    | nil => rfl
    | cons a t =>
      have ha : pyIsDigitChar a = true :=
        List.all_eq_true.mp hd a (List.mem_cons_self a t)
      rw [List.dropWhile_cons, digit_not_space a ha]
      simp
  · cases hr : l.reverse with
    | nil => rfl
    | cons b r =>
      have hb : b ∈ l := by
        rw [← List.mem_reverse, hr]; exact List.mem_cons_self b r
      have hbd : pyIsDigitChar b = true := List.all_eq_true.mp hd b hb
      rw [List.dropWhile_cons, digit_not_space b hbd]
      simp

/-- `pySplit` on a list avoiding the separator returns the singleton. -/
theorem pySplit_not_mem (sep : Char) (l : List Char) (h : sep ∉ l) :
    pySplit sep l = [l] := by
  induction l with
  | nil => rfl
  | cons c cs ih =>
    have hc : ¬(c = sep) := fun e => h (e ▸ List.mem_cons_self c cs)
    have hcs : sep ∉ cs := fun m => h (List.mem_cons_of_mem c m)
    simp [pySplit, hc, ih hcs]

/-- `pySplit` peels off the part before the first separator. -/
theorem pySplit_append (sep : Char) (ms ss : List Char) (hms : sep ∉ ms) :
    pySplit sep (ms ++ sep :: ss) = ms :: pySplit sep ss := by
  induction ms with
  | nil => simp [pySplit]
  | cons c cs ih =>
    have hc : ¬(c = sep) := fun e => hms (e ▸ List.mem_cons_self c cs)
    have hcs : sep ∉ cs := fun m => hms (List.mem_cons_of_mem c m)
    simp only [List.cons_append, pySplit, if_neg hc]
    rw [show cs.append (sep :: ss) = cs ++ sep :: ss from rfl, ih hcs]

/-- The separator is not among digit characters. -/
theorem colon_not_mem_digits (l : List Char)
    (hd : l.all pyIsDigitChar = true) : ':' ∉ l := fun hm =>
  absurd (List.all_eq_true.mp hd ':' hm) (by decide)

/-- The colon grammar on two nonempty all-digit components, in general:
no range limit is applied to either component. -/
theorem parse_duration_colon_general (ms ss : List Char)
    (hm : ms ≠ []) (hs1 : ss ≠ [])
    (hmd : ms.all pyIsDigitChar = true) (hsd : ss.all pyIsDigitChar = true) :
    parse_duration (String.mk (ms ++ ':' :: ss)) =
      .ok (digitsToNat ms * 60 + digitsToNat ss) := by
  have hv : pyStrip (ms ++ ':' :: ss) = ms ++ ':' :: ss := by
    refine pyStrip_no_ws_ends _ ?_ ?_
    · cases ms with
      | nil => exact absurd rfl hm
      | cons a t =>
        have ha : pyIsDigitChar a = true :=
          List.all_eq_true.mp hmd a (List.mem_cons_self a t)
        rw [List.cons_append, List.dropWhile_cons, digit_not_space a ha]
        simp
    · rw [List.reverse_append, List.reverse_cons]
      cases hr : ss.reverse with
      | nil => exact absurd (List.reverse_eq_nil_iff.mp hr) hs1
      | cons b r =>
        have hb : b ∈ ss := by
          rw [← List.mem_reverse, hr]; exact List.mem_cons_self b r
        have hbd : pyIsDigitChar b = true := List.all_eq_true.mp hsd b hb
        simp only [List.cons_append]
        rw [List.dropWhile_cons, digit_not_space b hbd]
        simp
  have hmem : ':' ∈ ms ++ ':' :: ss :=
    List.mem_append_right ms (List.mem_cons_self ':' ss)
  have hsplit : pySplit ':' (ms ++ ':' :: ss) = [ms, ss] := by
    rw [pySplit_append ':' ms ss (colon_not_mem_digits ms hmd),
      pySplit_not_mem ':' ss (colon_not_mem_digits ss hsd)]
  have hmne : ms.isEmpty = false := by
    cases ms with
    | nil => exact absurd rfl hm
    | cons a t => rfl
  have hsne : ss.isEmpty = false := by
    cases ss with
    | nil => exact absurd rfl hs1
    | cons a t => rfl
  have hcp : colonParse (ms ++ ':' :: ss) =
      some (digitsToNat ms * 60 + digitsToNat ss) := by
    simp only [colonParse, hsplit, List.map_cons, List.map_nil,
      pyStrip_all_digits ms hm hmd, pyStrip_all_digits ss hs1 hsd]
    simp [pyIsdigit, hmne, hsne, hmd, hsd]
  have hne : ms ++ ':' :: ss ≠ [] := by simp
  simp only [parse_duration, String.toList, hv, if_neg hne, if_pos hmem, hcp]

/-- C9: in the colon-separated grammar, components are not range-limited:
for all nonempty all-digit components m and s the parser returns
`60 * m + s` even when s ≥ 60 or m ≥ 60 (`parse_duration "0:90" = 90`,
`parse_duration "99:99" = 6039`), and each component is individually
whitespace-stripped before the digit check, so inputs such as
`" 1 : 02 "` parse successfully (to 62). -/
theorem C9_colon_grammar_unbounded :
    (∀ ms ss : List Char, ms ≠ [] → ss ≠ [] →
      ms.all pyIsDigitChar = true → ss.all pyIsDigitChar = true →
      parse_duration (String.mk (ms ++ ':' :: ss)) =
        .ok (60 * digitsToNat ms + digitsToNat ss)) ∧
    parse_duration "0:90" = .ok 90 ∧
    parse_duration "99:99" = .ok 6039 ∧
    parse_duration " 1 : 02 " = .ok 62 := by
  refine ⟨fun ms ss hm hs1 hmd hsd => ?_, rfl, rfl, rfl⟩
  rw [parse_duration_colon_general ms ss hm hs1 hmd hsd, Nat.mul_comm]

/-- `C9_colon_grammar_unbounded` applied to "99:99". -/
theorem C9_colon_grammar_unbounded_witness :
    (['9', '9'] : List Char) ≠ [] ∧
    (['9', '9'] : List Char).all pyIsDigitChar = true ∧
    parse_duration (String.mk (['9', '9'] ++ ':' :: ['9', '9'])) =
      .ok (60 * digitsToNat ['9', '9'] + digitsToNat ['9', '9']) :=
  ⟨by decide, by decide,
    C9_colon_grammar_unbounded.1 ['9', '9'] ['9', '9'] (by decide) (by decide)
      (by decide) (by decide)⟩

/-- An element not satisfying the predicate survives `dropWhile`. -/
theorem mem_dropWhile_of_not (p : Char → Bool) (l : List Char) (x : Char)
    (hx : x ∈ l) (hpx : p x = false) : x ∈ l.dropWhile p := by
  induction l with
  | nil => cases hx
  | cons a t ih =>
    rw [List.dropWhile_cons]
    by_cases ha : p a = true
    · rw [ha]
      simp only [if_pos rfl]
      rcases List.mem_cons.mp hx with rfl | hxt
      · rw [hpx] at ha; cases ha
      · exact ih hxt
    · rw [Bool.not_eq_true] at ha
      rw [ha]
      simpa using hx

/-- A string containing ':' is not all digits. -/
theorem colon_not_isdigit (v : List Char) (h : ':' ∈ v) :
    pyIsdigit v = false := by
  rcases hall : v.all pyIsDigitChar with hf | ht
  · simp [pyIsdigit, hall]
  · exact absurd (List.all_eq_true.mp hall ':' h) (by decide)

/-- `tryGroup` for a letter other than ':' cannot consume a ':'. -/
theorem mem_tryGroup_of_colon (c : Char) (cs : List Char)
    (hc : ¬(Char.toLower ':' = c)) (h : ':' ∈ cs) :
    ':' ∈ (tryGroup c cs).2 := by
  simp only [tryGroup, List.span_eq_take_drop]
  have hcolon_take : ':' ∉ cs.takeWhile pyIsDigitChar := fun hm =>
    absurd (List.mem_takeWhile_imp hm) (by decide)
  have hdrop : ':' ∈ cs.dropWhile pyIsDigitChar := by
    have := List.takeWhile_append_dropWhile (p := pyIsDigitChar) (l := cs)
    rcases List.mem_append.mp (this ▸ h) with hin | hin
    · exact absurd hin hcolon_take
    · exact hin
  cases hd : cs.dropWhile pyIsDigitChar with
  | nil => simpa using h
  | cons r rest =>
    rw [hd] at hdrop
    dsimp only
    by_cases hcond : cs.takeWhile pyIsDigitChar ≠ [] ∧ r.toLower = c
    · rw [if_pos hcond]
      rcases List.mem_cons.mp hdrop with rfl | hin
      · exact absurd hcond.2 hc
      · exact hin
    · rw [if_neg hcond]
      exact h

/-- `DURATION_PATTERN` never matches a string containing ':'. -/
theorem matchDurationPattern_colon_none (cs : List Char) (h : ':' ∈ cs) :
    matchDurationPattern cs = none := by
  have hws : py_isspace ':' = false := by decide
  have h0 : ':' ∈ cs.dropWhile py_isspace :=
    mem_dropWhile_of_not _ _ _ h hws
  have h1 : ':' ∈ (tryGroup 'h' (cs.dropWhile py_isspace)).2 :=
    mem_tryGroup_of_colon 'h' _ (by decide) h0
  have h2 : ':' ∈ ((tryGroup 'h' (cs.dropWhile py_isspace)).2).dropWhile py_isspace :=
    mem_dropWhile_of_not _ _ _ h1 hws
  have h3 : ':' ∈ (tryGroup 'm' (((tryGroup 'h' (cs.dropWhile py_isspace)).2).dropWhile py_isspace)).2 :=
    mem_tryGroup_of_colon 'm' _ (by decide) h2
  have h4 : ':' ∈ ((tryGroup 'm' (((tryGroup 'h' (cs.dropWhile py_isspace)).2).dropWhile py_isspace)).2).dropWhile py_isspace :=
    mem_dropWhile_of_not _ _ _ h3 hws
  have h5 : ':' ∈ (tryGroup 's' (((tryGroup 'm' (((tryGroup 'h' (cs.dropWhile py_isspace)).2).dropWhile py_isspace)).2).dropWhile py_isspace)).2 :=
    mem_tryGroup_of_colon 's' _ (by decide) h4
  have h6 : ':' ∈ ((tryGroup 's' (((tryGroup 'm' (((tryGroup 'h' (cs.dropWhile py_isspace)).2).dropWhile py_isspace)).2).dropWhile py_isspace)).2).dropWhile py_isspace :=
    mem_dropWhile_of_not _ _ _ h5 hws
  have hne : ((tryGroup 's' (((tryGroup 'm' (((tryGroup 'h' (cs.dropWhile py_isspace)).2).dropWhile py_isspace)).2).dropWhile py_isspace)).2).dropWhile py_isspace ≠ [] := by
    intro heq
    rw [heq] at h6
    cases h6
  simp only [matchDurationPattern, if_neg hne]

/-- The colon grammar fails on a string with no ':'. -/
theorem colonParse_no_colon (v : List Char) (h : ':' ∉ v) :
    colonParse v = none := by
  simp only [colonParse, pySplit_not_mem ':' v h, List.map_cons, List.map_nil]
  by_cases hd : ([pyStrip v] : List (List Char)).all pyIsdigit = true
  · simp [hd]
  · rw [Bool.not_eq_true] at hd
    simp [hd]

/-- `parse_duration` succeeds with `n` exactly when the spec-side ordered
alternation (colon grammar, then bare integer, then suffix form) yields
`n`: the code's committed colon branch agrees with ordered trial because a
string containing ':' can match neither of the later grammars. -/
theorem parse_eq_orderedParse (value : String) (n : ℕ) :
    parse_duration value = .ok n ↔ orderedParse value = some n := by
  simp only [parse_duration, orderedParse, String.toList]
  by_cases hempty : pyStrip value.data = []
  · simp [hempty]
  · simp only [if_neg hempty]
    by_cases hcolon : ':' ∈ pyStrip value.data
    · rw [if_pos hcolon]
      cases hc : colonParse (pyStrip value.data) with
      | some m => simp [hc]
      | none =>
        have hint : intParse (pyStrip value.data) = none := by
          simp [intParse, colon_not_isdigit _ hcolon]
        have hsuf : suffixParse (pyStrip value.data) = none := by
          simp [suffixParse, matchDurationPattern_colon_none _ hcolon]
        simp [hc, hint, hsuf]
    · rw [if_neg hcolon]
      rw [colonParse_no_colon _ hcolon]
      by_cases hdig : pyIsdigit (pyStrip value.data) = true
      · have hi : intParse (pyStrip value.data) =
            some (digitsToNat (pyStrip value.data)) := by
          simp [intParse, hdig]
        simp [hdig, hi]
      · rw [Bool.not_eq_true] at hdig
        have hi : intParse (pyStrip value.data) = none := by
          simp [intParse, hdig]
        simp only [hdig, Bool.false_eq_true, if_false, hi]
        cases hm : matchDurationPattern (pyStrip value.data) with
        | some t =>
          obtain ⟨gh, gm, gs⟩ := t
          simp [suffixParse, hm]
        | none => simp [suffixParse, hm]

/-- C4: `parse_duration "90" = 90`, `parse_duration "2m30s" = 150`,
`parse_duration "00:10" = 10`, `parse_duration "1:02:03" = 3723`;
`parse_duration ""` fails with the empty-input error and
`parse_duration "abc"` with the invalid-format error; and the three
grammars (colon-separated with all-digit components, bare integer,
case-insensitive h/m/s suffix form with optional groups and missing groups
counting as zero) are tried in that order: the parser's successes coincide
with those of the spec-side ordered alternation `orderedParse`. -/
theorem C4_parse_examples_and_order :
    parse_duration "90" = .ok 90 ∧
    parse_duration "2m30s" = .ok 150 ∧
    parse_duration "00:10" = .ok 10 ∧
    parse_duration "1:02:03" = .ok 3723 ∧
    parse_duration "" = .error "Empty duration" ∧
    parse_duration "abc" = .error "Invalid duration: abc" ∧
    (∀ (value : String) (n : ℕ),
      parse_duration value = .ok n ↔ orderedParse value = some n) :=
  ⟨rfl, rfl, rfl, rfl, rfl, rfl, parse_eq_orderedParse⟩
